import Mathlib

/-!
Verification development for the `demusc` repository: a music source-separation
project consisting of a transformer-based `SpectrogramSeparator` model, a
`SpectrogramDataset`, an `SI_SDR_Loss`, and three training-loop variants
(the basic `train_model.ipynb` loop, the unnamed notebook's loop, and the
optimized `train_model` function with gradient accumulation, mixed precision,
a validation pass, and best-checkpoint saving).

Tensors are embedded shallowly: a tensor of shape `(a, b, c)` is a function
`Fin a → Fin b → Fin c → ℚ`, with exact rational arithmetic standing in for
the library's floating point.  The decibel conversion `10 * log10 _` of the
SI-SDR loss is taken in `ℝ` (`Real.log`).  The shape/error behavior of the
model's `forward` is embedded separately as an executable function on shape
tuples returning `Except`, mirroring the checks the tensor library performs
on each operation in source order.
-/

namespace Demusc

/-- The rectified-linear nonlinearity `nn.ReLU` applied to one scalar. -/
def relu (x : ℚ) : ℚ := max x 0

/-- Constructor arguments of `SpectrogramSeparator.__init__`
(`n_mels=128, seq_len=..., n_sources=4, d_model=256`; `nhead`/`num_layers`
only affect layer internals, not shapes). -/
structure SepConfig where
  n_mels : ℕ
  seq_len : ℕ
  n_sources : ℕ
  d_model : ℕ

/-- The operation of `SpectrogramSeparator.forward` at which the tensor
library raises a shape error. -/
inductive ShapeErr
  /-- the convolutional encoder (spatial output size would be non-positive) -/
  | conv
  /-- `self.flatten_proj(x)`: `nn.Linear(128 * n_mels, d_model)` applied to a
  tensor whose last dimension is `128 * F` -/
  | linear
  /-- the broadcast addition `x + self.pos_encoding[:T]` -/
  | posEnc
  /-- `queries.reshape(B*S, T, -1)`: the element count is not divisible -/
  | reshape
  /-- the transformer decoder: the query feature dimension after the reshape
  differs from `d_model` -/
  | decoder
deriving DecidableEq

/-- Shape semantics of `SpectrogramSeparator.forward` on an input of shape
`(B, F, T)`, with each check in source order:

1. `x.unsqueeze(1)` then the three `Conv2d(kernel_size=3, padding=1)` blocks
   preserve `(F, T)` and require positive spatial dims, giving `(B, 128, F, T)`;
2. `x.permute(0, 3, 1, 2).reshape(B, T, 128*F)` then `self.flatten_proj`
   (`nn.Linear(128 * n_mels, d_model)`) requires `128 * F = 128 * n_mels`;
3. `x + self.pos_encoding[:T]` broadcasts `(B, T, d_model)` against
   `(min T seq_len, d_model)`, legal when the sliced length equals `T` or is `1`
   (for positive `T` and `seq_len` this is exactly torch's broadcast rule);
4. `queries = self.source_queries.expand(B, -1, -1, -1)` has shape
   `(B, n_sources, seq_len, d_model)` and `queries.reshape(B*S, T, -1)`
   requires `B*S*T` to divide `B*S*seq_len*d_model`;
5. the transformer decoder requires the inferred last dimension
   `B*S*seq_len*d_model / (B*S*T)` to equal `d_model`;
6. `output_proj`, the final `reshape(B, S, T, n_mels)` and
   `permute(0, 1, 3, 2)` always succeed, giving `(B, n_sources, n_mels, T)`. -/
def forwardShape (cfg : SepConfig) (B F T : ℕ) : Except ShapeErr (ℕ × ℕ × ℕ × ℕ) :=
  if F = 0 ∨ T = 0 then .error .conv
  else if 128 * F ≠ 128 * cfg.n_mels then .error .linear
  else if ¬ (min T cfg.seq_len = T ∨ min T cfg.seq_len = 1) then .error .posEnc
  else if ¬ (B * cfg.n_sources * T ∣ B * cfg.n_sources * cfg.seq_len * cfg.d_model) then
    .error .reshape
  else if B * cfg.n_sources * cfg.seq_len * cfg.d_model / (B * cfg.n_sources * T) ≠ cfg.d_model then
    .error .decoder
  else .ok (B, cfg.n_sources, cfg.n_mels, T)

/-- The layers built in `SpectrogramSeparator.__init__`, with their (learned)
weights arbitrary.  `conv_encoder`, `transformer_encoder` and
`transformer_decoder` are kept abstract: any function of the documented
shape-to-shape signature (quantified over the batch size, since batch
normalization couples batch items in training mode); the claims settled
against this model hold for every such function, hence for the actual
convolution/attention stacks with any weights.  The `nn.Linear` layers and the
final `nn.ReLU`, which the claims are about, are embedded concretely.
`flatten_proj`'s weight is indexed by the `(channel, mel)` pair that
`reshape(B, T, C*M)` flattens row-major, so the reshape is absorbed into the
double-indexed weight. -/
structure SeparatorParams (cfg : SepConfig) where
  conv_encoder : (B : ℕ) → (Fin B → Fin 1 → Fin cfg.n_mels → Fin cfg.seq_len → ℚ) →
      Fin B → Fin 128 → Fin cfg.n_mels → Fin cfg.seq_len → ℚ
  flatten_proj_w : Fin cfg.d_model → Fin 128 → Fin cfg.n_mels → ℚ
  flatten_proj_b : Fin cfg.d_model → ℚ
  pos_encoding : Fin cfg.seq_len → Fin cfg.d_model → ℚ
  transformer_encoder : (B : ℕ) → (Fin B → Fin cfg.seq_len → Fin cfg.d_model → ℚ) →
      Fin B → Fin cfg.seq_len → Fin cfg.d_model → ℚ
  transformer_decoder : (B : ℕ) → (Fin B → Fin cfg.seq_len → Fin cfg.d_model → ℚ) →
      (Fin B → Fin cfg.seq_len → Fin cfg.d_model → ℚ) →
      Fin B → Fin cfg.seq_len → Fin cfg.d_model → ℚ
  source_queries : Fin cfg.n_sources → Fin cfg.seq_len → Fin cfg.d_model → ℚ
  output_proj_w : Fin cfg.n_mels → Fin cfg.d_model → ℚ
  output_proj_b : Fin cfg.n_mels → ℚ

/-- Value semantics of `SpectrogramSeparator.forward` on a shape-correct batch
`x : (B, n_mels, seq_len)`, following the source line by line.  The
`(batch, source)` flattening `reshape(B*S, T, -1)` and its inverse
`reshape(B, S, T, n_mels)` are `finProdFinEquiv` (row-major, matching torch). -/
def SpectrogramSeparator.forward {cfg : SepConfig} (P : SeparatorParams cfg) {B : ℕ}
    (x : Fin B → Fin cfg.n_mels → Fin cfg.seq_len → ℚ) :
    Fin B → Fin cfg.n_sources → Fin cfg.n_mels → Fin cfg.seq_len → ℚ :=
  -- x = x.unsqueeze(1); x = self.conv_encoder(x)
  let xc := P.conv_encoder B (fun b _ f t => x b f t)
  -- x = x.permute(0, 3, 1, 2).reshape(B, T, C*M); x = self.flatten_proj(x)
  let xp : Fin B → Fin cfg.seq_len → Fin cfg.d_model → ℚ := fun b t d =>
    (∑ c : Fin 128, ∑ m : Fin cfg.n_mels, P.flatten_proj_w d c m * xc b c m t) +
      P.flatten_proj_b d
  -- x = x + self.pos_encoding[:T]  (T = seq_len, so the slice is the whole table)
  let xe : Fin B → Fin cfg.seq_len → Fin cfg.d_model → ℚ := fun b t d =>
    xp b t d + P.pos_encoding t d
  -- memory = self.transformer_encoder(x)
  let memory := P.transformer_encoder B xe
  -- queries = self.source_queries.expand(B, -1, -1, -1).reshape(B*S, T, -1)
  let queries : Fin (B * cfg.n_sources) → Fin cfg.seq_len → Fin cfg.d_model → ℚ :=
    fun i t d => P.source_queries (finProdFinEquiv.symm i).2 t d
  -- memory = memory.unsqueeze(1).expand(-1, S, -1, -1).reshape(B*S, T, -1)
  let memoryR : Fin (B * cfg.n_sources) → Fin cfg.seq_len → Fin cfg.d_model → ℚ :=
    fun i t d => memory (finProdFinEquiv.symm i).1 t d
  -- output = self.transformer_decoder(queries, memory)
  let out := P.transformer_decoder (B * cfg.n_sources) queries memoryR
  -- output = self.output_proj(output): nn.Linear(d_model, n_mels) then nn.ReLU
  let proj : Fin (B * cfg.n_sources) → Fin cfg.seq_len → Fin cfg.n_mels → ℚ :=
    fun i t m => relu ((∑ d, P.output_proj_w m d * out i t d) + P.output_proj_b m)
  -- output.reshape(B, S, T, n_mels).permute(0, 1, 3, 2)
  fun b s m t => proj (finProdFinEquiv (b, s)) t m

/-! ## SI_SDR_Loss

`SI_SDR_Loss.forward` receives `predictions`/`targets` of shape `(B, S, F, T)`,
reshapes both to `(B*S, F*T)` and then works row-wise (every reduction is over
`dim=-1`).  The embedding keeps the `(b, s)` and `(f, t)` indices nested — the
row of the reshaped tensor at `(b, s)` is the function `p b s`, and each
`dim=-1` reduction over the flat `F*T` axis is the double sum over `(f, t)`;
the final `.mean()` over all `B*S` rows is the double sum over `(b, s)`
divided by `B*S`.  A separate 1-D-vector formulation (`siSdrSpecLoss`), with
the `reshape` made explicit, is proved equal below. -/

/-- `torch.sum(v, dim=-1)` of one row stored as an `(F, T)` block. -/
def tsum2 {F T : ℕ} (v : Fin F → Fin T → ℚ) : ℚ := ∑ f, ∑ t, v f t

/-- `torch.mean(v, dim=-1)` of one row: the sum of its `F*T` entries over `F*T`. -/
def tmean2 {F T : ℕ} (v : Fin F → Fin T → ℚ) : ℚ := tsum2 v / ((F * T : ℕ) : ℚ)

/-- The zero-mean normalization `v - torch.mean(v, dim=-1, keepdim=True)`. -/
def zm2 {F T : ℕ} (v : Fin F → Fin T → ℚ) : Fin F → Fin T → ℚ :=
  fun f t => v f t - tmean2 v

/-- `torch.sum(u * v, dim=-1)` of two rows. -/
def dot2 {F T : ℕ} (u v : Fin F → Fin T → ℚ) : ℚ := ∑ f, ∑ t, u f t * v f t

/-- `alpha = (torch.sum(predictions * targets, -1) + eps) / (torch.sum(targets ** 2, -1) + eps)`
for one row, after the zero-mean normalization. -/
def SI_SDR_alpha (eps : ℚ) {F T : ℕ} (p t : Fin F → Fin T → ℚ) : ℚ :=
  (dot2 (zm2 p) (zm2 t) + eps) / (dot2 (zm2 t) (zm2 t) + eps)

/-- `si_sdr = torch.sum(scaled_target ** 2, -1) / (torch.sum((predictions - scaled_target) ** 2, -1) + eps)`
for one row, with `scaled_target = alpha * targets`. -/
def SI_SDR_ratio (eps : ℚ) {F T : ℕ} (p t : Fin F → Fin T → ℚ) : ℚ :=
  (dot2 (fun f u => SI_SDR_alpha eps p t * zm2 t f u)
        (fun f u => SI_SDR_alpha eps p t * zm2 t f u)) /
  (dot2 (fun f u => zm2 p f u - SI_SDR_alpha eps p t * zm2 t f u)
        (fun f u => zm2 p f u - SI_SDR_alpha eps p t * zm2 t f u) + eps)

/-- Base-10 logarithm on `ℝ`. -/
noncomputable def log10 (x : ℝ) : ℝ := Real.log x / Real.log 10

/-- `si_sdr = 10 * torch.log10(si_sdr + eps)` for one `(batch, source)` row. -/
noncomputable def SI_SDR_row (eps : ℚ) {F T : ℕ} (p t : Fin F → Fin T → ℚ) : ℝ :=
  10 * log10 ((SI_SDR_ratio eps p t + eps : ℚ) : ℝ)

/-- `SI_SDR_Loss.forward(predictions, targets)`: `return -si_sdr.mean()`,
the mean running over all `B*S` rows of the reshaped tensors. -/
noncomputable def SI_SDR_Loss.forward (eps : ℚ) {B S F T : ℕ}
    (predictions targets : Fin B → Fin S → Fin F → Fin T → ℚ) : ℝ :=
  -((∑ b, ∑ s, SI_SDR_row eps (predictions b s) (targets b s)) / ((B * S : ℕ) : ℝ))

/-! ### The loss algorithm as the spec states it (claim C2)

Modelled from the spec's words, over explicitly flattened 1-D vectors, to be
compared with the embedding of the source above. -/

/-- Row-major flattening of an `(F, T)` block into a 1-D vector of length
`F * T` (the `reshape(B*S, -1)` of the source, one row at a time). -/
def flattenFT {F T : ℕ} (v : Fin F → Fin T → ℚ) : Fin (F * T) → ℚ := fun i =>
  v (finProdFinEquiv.symm i).1 (finProdFinEquiv.symm i).2

/-- Mean of a 1-D vector. -/
def vmean {N : ℕ} (v : Fin N → ℚ) : ℚ := (∑ j, v j) / (N : ℚ)

/-- A 1-D vector minus its mean. -/
def zmv {N : ℕ} (v : Fin N → ℚ) : Fin N → ℚ := fun j => v j - vmean v

/-- Inner product of two 1-D vectors. -/
def dotv {N : ℕ} (u v : Fin N → ℚ) : ℚ := ∑ j, u j * v j

/-- Spec algorithm, step 2: after subtracting each vector's mean,
`alpha` = (inner product of prediction and target + eps) over (squared norm
of target + eps). -/
def siSdrSpecAlpha (eps : ℚ) {N : ℕ} (p t : Fin N → ℚ) : ℚ :=
  (dotv (zmv p) (zmv t) + eps) / (dotv (zmv t) (zmv t) + eps)

/-- Spec algorithm, step 3: with the scaled target `alpha * target`, the
ratio of the scaled target's energy to the energy of
(prediction - scaled target), with eps added to the denominator. -/
def siSdrSpecRatio (eps : ℚ) {N : ℕ} (p t : Fin N → ℚ) : ℚ :=
  dotv (fun j => siSdrSpecAlpha eps p t * zmv t j)
       (fun j => siSdrSpecAlpha eps p t * zmv t j) /
    (dotv (fun j => zmv p j - siSdrSpecAlpha eps p t * zmv t j)
          (fun j => zmv p j - siSdrSpecAlpha eps p t * zmv t j) + eps)

/-- Spec algorithm for one `(batch, source)` pair: `10 * log10` of
(ratio + eps). -/
noncomputable def siSdrSpecScore (eps : ℚ) {N : ℕ} (p t : Fin N → ℚ) : ℝ :=
  10 * log10 ((siSdrSpecRatio eps p t + eps : ℚ) : ℝ)

/-- Spec algorithm for the whole loss: flatten each `(batch, source)` pair to
a 1-D vector, score it, and return the negated mean of the scores over all
`B * S` entries. -/
noncomputable def siSdrSpecLoss (eps : ℚ) {B S F T : ℕ}
    (predictions targets : Fin B → Fin S → Fin F → Fin T → ℚ) : ℝ :=
  -((∑ b, ∑ s, siSdrSpecScore eps (flattenFT (predictions b s)) (flattenFT (targets b s))) /
      ((B * S : ℕ) : ℝ))

/-! ## SpectrogramDataset

`__init__` stores `X` and `y` with no validation of any kind; `__len__`
returns `len(self.X)`; `__getitem__` returns `(self.X[idx], self.y[idx])`,
where an out-of-range index raises an unguarded `IndexError` — modelled as
`none`. -/

/-- The dataset as constructed by `SpectrogramDataset.__init__(X, y)`:
both collections are stored as given, without any length check. -/
structure SpectrogramDataset (α β : Type) where
  X : List α
  y : List β

/-- `__len__`: `return len(self.X)`. -/
def SpectrogramDataset.len {α β : Type} (d : SpectrogramDataset α β) : ℕ :=
  d.X.length

/-- `__getitem__`: `return self.X[idx], self.y[idx]`; `none` models the
unguarded `IndexError` raised inside the item access. -/
def SpectrogramDataset.getitem {α β : Type} (d : SpectrogramDataset α β) (idx : ℕ) :
    Option (α × β) := do
  pure (← d.X[idx]?, ← d.y[idx]?)

/-! ## Checkpointing (epoch-level state machine)

Each epoch yields a list of per-batch training losses and (in the optimized
`train_model` only) per-batch validation losses.  The loops then compute one
comparison quantity per epoch and run
`if avg < best_loss: best_loss = avg; torch.save(...)` with
`best_loss = float('inf')` initially (modelled as `none`). -/

/-- One epoch's recorded per-batch losses. -/
structure EpochData where
  train : List ℚ
  val : List ℚ

/-- Mean of a list of per-batch losses (`loss_sum / len(loader)`). -/
def meanQ (xs : List ℚ) : ℚ := xs.sum / (xs.length : ℚ)

/-- The quantity the optimized `train_model` compares to `best_loss`:
`avg_test_loss = test_loss / len(test_loader)`, the epoch's mean validation
loss over the held-out set. -/
def optimizedCompareLoss (e : EpochData) : ℚ := meanQ e.val

/-- The quantity `train_model.ipynb` (and the unnamed notebook) compares to
`best_loss`: `avg_loss = epoch_loss / len(train_loader)`, the epoch's mean
training loss; these loops run no validation pass at all. -/
def basicCompareLoss (e : EpochData) : ℚ := meanQ e.train

/-- `l < best_loss` where `best_loss` starts as `float('inf')` (`none`). -/
def ltInf (l : ℚ) (best : Option ℚ) : Bool :=
  match best with
  | none => true
  | some b => decide (l < b)

/-- One epoch's update of the `best_loss` variable. -/
def stepBest (f : EpochData → ℚ) (best : Option ℚ) (e : EpochData) : Option ℚ :=
  if ltInf (f e) best then some (f e) else best

/-- The value of `best_loss` after folding the epochs. -/
def runBest (f : EpochData → ℚ) (best : Option ℚ) : List EpochData → Option ℚ
  | [] => best
  | e :: es => runBest f (stepBest f best e) es

/-- Whether each epoch's `torch.save` branch fires, in order. -/
def writeFlags (f : EpochData → ℚ) (best : Option ℚ) : List EpochData → List Bool
  | [] => []
  | e :: es => ltInf (f e) best :: writeFlags f (stepBest f best e) es

/-- The `epoch` and `loss` entries of the checkpoint dict written by
`torch.save({'epoch': epoch, ..., 'loss': best_loss}, path)`. -/
structure CkptFile where
  epoch : ℕ
  loss : ℚ

/-- The checkpoint file on disk after the loop (`none` = never written);
every write goes to the same fixed path, overwriting the previous file, so
only the last write's contents survive. -/
def runSaves (f : EpochData → ℚ) (n : ℕ) (best : Option ℚ) (file : Option CkptFile) :
    List EpochData → Option CkptFile
  | [] => file
  | e :: es =>
    if ltInf (f e) best then runSaves f (n + 1) (some (f e)) (some ⟨n, f e⟩) es
    else runSaves f (n + 1) best file es

/-- The spec's eight-epoch validation-loss sequence, as epochs of the
optimized loop (a single validation batch per epoch, so the epoch mean is the
listed value). -/
def demoEpochs : List EpochData :=
  [126/10, 112/10, 109/10, 109/10, 108/10, 134/10, 101/10, 10].map
    (fun l => ⟨[], [l]⟩)

/-- A two-epoch run of the basic `train_model.ipynb` loop: training-batch
losses improve from 1 to 0 while validation losses regress from 5 to 9. -/
def demoBasicEpochs : List EpochData := [⟨[1], [5]⟩, ⟨[0], [9]⟩]

/-! ## Checkpoint dict keys and paths -/

/-- Keys of the dict passed to `torch.save` in `train_model.ipynb`:
only the parameters and the optimizer state. -/
def basicCheckpointKeys : List String := ["model_state_dict", "optimizer_state_dict"]

/-- Keys of the dict passed to `torch.save` in the unnamed notebook. -/
def unnamedCheckpointKeys : List String :=
  ["epoch", "model_state_dict", "optimizer_state_dict", "loss"]

/-- Keys of the dict passed to `torch.save` in the optimized `train_model`. -/
def optimizedCheckpointKeys : List String :=
  ["epoch", "model_state_dict", "optimizer_state_dict", "loss"]

/-- Fixed save path in `train_model.ipynb`. -/
def basicCheckpointPath : String := "../results/models/model.pth"

/-- Fixed save path in the unnamed notebook. -/
def unnamedCheckpointPath : String := "../results/models/model.pth"

/-- Fixed save path in the optimized `train_model`
(`os.path.join(results_dir, "models/model.pth")`), relative to `results_dir`. -/
def optimizedCheckpointRelPath : String := "models/model.pth"

/-! ## Gradient accumulation (optimized `train_model`, one epoch)

For `batch_idx` in `0..n-1`: backward accumulates the batch's gradient; then
`if (batch_idx + 1) % gradient_accumulation_steps == 0:` step and
`zero_grad`.  After the loop,
`if (batch_idx + 1) % gradient_accumulation_steps != 0:` one final step and
`zero_grad`, where `batch_idx` still holds its last value `n - 1`. -/

/-- Events of one epoch of the optimized training loop. -/
inductive TrainEv
  /-- `loss.backward()` for 0-based batch `i` (gradient accumulated) -/
  | backward (i : ℕ)
  /-- `optimizer.step()` (via `scaler.step(optimizer)` under AMP) -/
  | optStep
  /-- `optimizer.zero_grad()` -/
  | zeroGrad
deriving DecidableEq

/-- The events of the loop body for 0-based batch index `i`. -/
def batchEvents (k i : ℕ) : List TrainEv :=
  [TrainEv.backward i] ++
    (if (i + 1) % k = 0 then [TrainEv.optStep, TrainEv.zeroGrad] else [])

/-- The full event trace of one epoch with `n` batches and accumulation count
`k`: the per-batch events, then the end-of-epoch flush, whose guard
`(batch_idx + 1) % k != 0` with `batch_idx = n - 1` is `n % k ≠ 0` (the trace
is only meaningful for `n ≥ 1`; for `n = 0` the Python code would hit an
unbound `batch_idx`). -/
def epochEvents (n k : ℕ) : List TrainEv :=
  (List.range n).flatMap (batchEvents k) ++
    (if n % k ≠ 0 then [TrainEv.optStep, TrainEv.zeroGrad] else [])

/-- Number of optimizer steps in a list of events. -/
def countSteps (evs : List TrainEv) : ℕ := evs.count TrainEv.optStep

/-- A mixture collection of two spectrograms paired with a source collection
of one entry: the mismatched input for claim C6 (scalars stand in for the
spectrogram blocks; the indexing behavior is what is at stake). -/
def demoMismatchDataset : SpectrogramDataset ℚ ℚ := ⟨[0, 1], [10]⟩

/-- A concrete one-frequency, two-frame target row `(1, -1)` (already
zero-mean) used in the SI-SDR counterexamples. -/
def cexRow : Fin 1 → Fin 2 → ℚ := fun _ j => if j.val = 0 then 1 else -1

/-- The all-zero `(1, 1, 1, 1)` tensor, used as a witness input. -/
def cexZero : Fin 1 → Fin 1 → Fin 1 → Fin 1 → ℚ := fun _ _ _ _ => 0

/-! # Theorems -/

/-- A sum over the flat `F*T` index equals the double sum over `(f, t)`. -/
lemma sum_flat {F T : ℕ} (g : Fin F → Fin T → ℚ) :
    ∑ i : Fin (F * T), g (finProdFinEquiv.symm i).1 (finProdFinEquiv.symm i).2 =
      ∑ f, ∑ t, g f t := by
  have h1 : ∑ i : Fin (F * T), g (finProdFinEquiv.symm i).1 (finProdFinEquiv.symm i).2 =
      ∑ q : Fin F × Fin T, g q.1 q.2 :=
    Fintype.sum_equiv finProdFinEquiv.symm _ _ (fun i => rfl)
  rw [h1, Fintype.sum_prod_type]

/-- Means agree across the flattening. -/
lemma vmean_flattenFT {F T : ℕ} (v : Fin F → Fin T → ℚ) :
    vmean (flattenFT v) = tmean2 v := by
  unfold vmean tmean2 tsum2 flattenFT
  rw [sum_flat]

/-- Zero-meaning commutes with the flattening. -/
lemma zmv_flattenFT {F T : ℕ} (v : Fin F → Fin T → ℚ) :
    zmv (flattenFT v) = flattenFT (zm2 v) := by
  funext j
  show flattenFT v j - vmean (flattenFT v) = flattenFT (zm2 v) j
  rw [vmean_flattenFT]
  rfl

/-- Inner products agree across the flattening. -/
lemma dotv_flattenFT {F T : ℕ} (u v : Fin F → Fin T → ℚ) :
    dotv (flattenFT u) (flattenFT v) = dot2 u v := by
  unfold dotv dot2 flattenFT
  exact sum_flat (fun a b => u a b * v a b)

/-- The spec's per-pair score on the flattened vectors equals the source's
row computation. -/
lemma specScore_eq_row (eps : ℚ) {F T : ℕ} (p t : Fin F → Fin T → ℚ) :
    siSdrSpecScore eps (flattenFT p) (flattenFT t) = SI_SDR_row eps p t := by
  have halpha : siSdrSpecAlpha eps (flattenFT p) (flattenFT t) = SI_SDR_alpha eps p t := by
    unfold siSdrSpecAlpha SI_SDR_alpha
    rw [zmv_flattenFT, zmv_flattenFT, dotv_flattenFT, dotv_flattenFT]
  have hratio : siSdrSpecRatio eps (flattenFT p) (flattenFT t) = SI_SDR_ratio eps p t := by
    unfold siSdrSpecRatio SI_SDR_ratio
    rw [halpha, zmv_flattenFT, zmv_flattenFT]
    rw [show (fun j => SI_SDR_alpha eps p t * flattenFT (zm2 t) j) =
          flattenFT (fun f u => SI_SDR_alpha eps p t * zm2 t f u) from rfl]
    rw [show (fun j => flattenFT (zm2 p) j - SI_SDR_alpha eps p t * flattenFT (zm2 t) j) =
          flattenFT (fun f u => zm2 p f u - SI_SDR_alpha eps p t * zm2 t f u) from rfl]
    rw [dotv_flattenFT, dotv_flattenFT]
  unfold siSdrSpecScore SI_SDR_row
  rw [hratio]

/-- C2: for every predictions/targets pair of shape `(B, S, F, T)`, the value
computed by `SI_SDR_Loss.forward` equals the spec's algorithm: flatten each
`(batch, source)` pair to a 1-D vector, zero-mean both, take
`alpha = (⟨p, t⟩ + eps) / (‖t‖² + eps)`, the scaled target `alpha * t`, the
ratio of scaled-target energy to residual energy with `eps` in the
denominator, `10 * log10 (ratio + eps)`, and return the negated mean of the
scores over the `B * S` entries. -/
theorem C2_loss_matches_spec_algorithm (eps : ℚ) {B S F T : ℕ}
    (predictions targets : Fin B → Fin S → Fin F → Fin T → ℚ) :
    SI_SDR_Loss.forward eps predictions targets = siSdrSpecLoss eps predictions targets := by
  unfold SI_SDR_Loss.forward siSdrSpecLoss
  simp only [specScore_eq_row]

/-- C6: `SpectrogramDataset.__init__` accepts a mixture collection of two
items and a source collection of one item without any validation error,
reports length 2, and item access at index 1 fails with an unguarded
index-out-of-range (modelled as `none`) rather than a descriptive
precondition failure at construction. -/
theorem C6_mismatch_indexes_out_of_range :
    demoMismatchDataset.len = 2 ∧
      demoMismatchDataset.getitem 0 = some (0, 10) ∧
      demoMismatchDataset.getitem 1 = none := by
  decide

/-- C4 counterexample: the checkpoint dict written by the `train_model.ipynb`
loop contains neither a `'epoch'` entry nor a `'loss'` entry, so not every
checkpoint file the repository's training loops write contains the best epoch
index and the best loss value. -/
theorem C4_counterexample :
    ¬ ("epoch" ∈ basicCheckpointKeys) ∧ ¬ ("loss" ∈ basicCheckpointKeys) := by
  decide

/-- The loss recorded in the checkpoint file equals the `best_loss` variable,
as long as that held on entry (they are updated together). -/
lemma runSaves_map_loss (f : EpochData → ℚ) :
    ∀ (es : List EpochData) (n : ℕ) (best : Option ℚ) (file : Option CkptFile),
      file.map CkptFile.loss = best →
      (runSaves f n best file es).map CkptFile.loss = runBest f best es
  | [], n, best, file, h => h
  | e :: es, n, best, file, h => by
    unfold runSaves runBest stepBest
    by_cases hw : ltInf (f e) best = true
    · rw [if_pos hw, if_pos hw]
      exact runSaves_map_loss f es (n + 1) _ _ rfl
    · rw [if_neg hw, if_neg hw]
      exact runSaves_map_loss f es (n + 1) _ _ h

/-- C4 (amended): the checkpoint dicts written by the optimized `train_model`
and by the unnamed notebook's loop contain all four entries (epoch index,
model parameters, optimizer state, loss value); the `train_model.ipynb` loop
writes only the model parameters and optimizer state; each loop saves to one
fixed path (the two notebooks use the same relative path), overwriting in
place, and the loss recorded in the surviving file always equals the final
`best_loss`. -/
theorem C4_amended :
    ("epoch" ∈ optimizedCheckpointKeys ∧ "model_state_dict" ∈ optimizedCheckpointKeys ∧
      "optimizer_state_dict" ∈ optimizedCheckpointKeys ∧ "loss" ∈ optimizedCheckpointKeys) ∧
    ("epoch" ∈ unnamedCheckpointKeys ∧ "model_state_dict" ∈ unnamedCheckpointKeys ∧
      "optimizer_state_dict" ∈ unnamedCheckpointKeys ∧ "loss" ∈ unnamedCheckpointKeys) ∧
    basicCheckpointKeys = ["model_state_dict", "optimizer_state_dict"] ∧
    unnamedCheckpointPath = basicCheckpointPath ∧
    (∀ (f : EpochData → ℚ) (es : List EpochData),
      (runSaves f 0 none none es).map CkptFile.loss = runBest f none es) := by
  refine ⟨by decide, by decide, rfl, rfl, fun f es => runSaves_map_loss f es 0 none none rfl⟩

/-- In-loop optimizer steps over the first `n` batches: one per batch whose
1-based index is divisible by `k`, i.e. `n / k` of them. -/
lemma count_steps_range (k : ℕ) :
    ∀ n : ℕ, ((List.range n).flatMap (batchEvents k)).count TrainEv.optStep = n / k := by
  intro n
  induction n with
  | zero => simp
  | succ n ih =>
    rw [List.range_succ, List.flatMap_append, List.count_append, ih, Nat.succ_div]
    congr 1
    by_cases h : (n + 1) % k = 0
    · rw [if_pos (Nat.dvd_iff_mod_eq_zero.mpr h)]
      simp [batchEvents, h, List.count_cons]
    · rw [if_neg (fun hd => h (Nat.dvd_iff_mod_eq_zero.mp hd))]
      simp [batchEvents, h, List.count_cons]

/-- Ceiling division identity used for the step count. -/
lemma div_add_flush (n k : ℕ) (hk : 1 ≤ k) (hn : 1 ≤ n) :
    n / k + (if ¬ k ∣ n then 1 else 0) = (n + k - 1) / k := by
  by_cases h : k ∣ n
  · rw [if_neg (by simp [h])]
    obtain ⟨q, rfl⟩ := h
    have hq : 1 ≤ q := by
      rcases Nat.eq_zero_or_pos q with h0 | h1
      · subst h0; simp at hn
      · exact h1
    have hrw : k * q + k - 1 = (k - 1) + k * q := by omega
    rw [hrw, Nat.add_mul_div_left _ _ (by omega : 0 < k),
      Nat.div_eq_of_lt (by omega : k - 1 < k), Nat.mul_div_cancel_left _ (by omega : 0 < k)]
    omega
  · rw [if_pos (by simp [h])]
    have hr : n % k ≠ 0 := fun h0 => h (Nat.dvd_iff_mod_eq_zero.mpr h0)
    have hlt : n % k < k := Nat.mod_lt _ (by omega)
    have hdecomp : n = k * (n / k) + n % k := (Nat.div_add_mod n k).symm
    have hmul : k * (n / k + 1) = k * (n / k) + k := by ring
    have hrw : n + k - 1 = (n % k - 1) + k * (n / k + 1) := by omega
    rw [hrw, Nat.add_mul_div_left _ _ (by omega : 0 < k),
      Nat.div_eq_of_lt (by omega : n % k - 1 < k)]
    omega

/-- C5: in one epoch of the optimized `train_model` with `n ≥ 1` batches and
accumulation count `k ≥ 1`: the loop body performs an optimizer step (and it
is immediately followed by a gradient reset) exactly after the batches whose
1-based index is a multiple of `k`; the end-of-epoch flush step occurs iff
`n` is not a multiple of `k`; every step in the trace is paired with one
reset; and the total number of optimizer steps is `⌈n / k⌉ = (n + k - 1) / k`. -/
theorem C5_gradient_accumulation (n k : ℕ) (hk : 1 ≤ k) (hn : 1 ≤ n) :
    (∀ i : ℕ, batchEvents k i =
      [TrainEv.backward i] ++
        (if k ∣ (i + 1) then [TrainEv.optStep, TrainEv.zeroGrad] else [])) ∧
    (epochEvents n k =
      (List.range n).flatMap (batchEvents k) ++
        (if ¬ k ∣ n then [TrainEv.optStep, TrainEv.zeroGrad] else [])) ∧
    ((epochEvents n k).count TrainEv.zeroGrad = countSteps (epochEvents n k)) ∧
    (countSteps (epochEvents n k) = (n + k - 1) / k) := by
  refine ⟨fun i => ?_, ?_, ?_, ?_⟩
  · rw [batchEvents]
    congr 1
    by_cases h : (i + 1) % k = 0
    · rw [if_pos h, if_pos (Nat.dvd_iff_mod_eq_zero.mpr h)]
    · rw [if_neg h, if_neg (fun hd => h (Nat.dvd_iff_mod_eq_zero.mp hd))]
  · rw [epochEvents]
    congr 1
    by_cases h : n % k = 0
    · rw [if_neg (by omega : ¬ n % k ≠ 0),
        if_neg (not_not_intro (Nat.dvd_iff_mod_eq_zero.mpr h))]
    · rw [if_pos h, if_pos (fun hd => h (Nat.dvd_iff_mod_eq_zero.mp hd))]
  · have hzero : ∀ m : ℕ,
        ((List.range m).flatMap (batchEvents k)).count TrainEv.zeroGrad =
          ((List.range m).flatMap (batchEvents k)).count TrainEv.optStep := by
      intro m
      induction m with
      | zero => rfl
      | succ m ih =>
        rw [List.range_succ, List.flatMap_append, List.count_append, List.count_append, ih]
        by_cases h : (m + 1) % k = 0 <;> simp [batchEvents, h, List.count_cons]
    rw [countSteps, epochEvents, List.count_append, List.count_append, hzero]
    congr 1
    by_cases h : n % k ≠ 0
    · rw [if_pos h]
      decide
    · rw [if_neg h]
      decide
  · rw [countSteps, epochEvents, List.count_append, count_steps_range,
      ← div_add_flush n k hk hn]
    congr 1
    by_cases h : n % k = 0
    · rw [if_neg (by omega : ¬ n % k ≠ 0),
        if_neg (not_not_intro (Nat.dvd_iff_mod_eq_zero.mpr h))]
      rfl
    · rw [if_pos h, if_pos (fun hd => h (Nat.dvd_iff_mod_eq_zero.mp hd))]
      decide

/-- Witness for C5 at `n = 5` batches, `k = 2`: three optimizer steps. -/
theorem C5_witness :
    1 ≤ 2 ∧ 1 ≤ 5 ∧ countSteps (epochEvents 5 2) = (5 + 2 - 1) / 2 :=
  ⟨by decide, by decide, (C5_gradient_accumulation 5 2 (by decide) (by decide)).2.2.2⟩

/-- The save branch at position `j` fires exactly when the epoch's comparison
loss beats the `best_loss` accumulated over the first `j` epochs. -/
lemma writeFlags_getElem (f : EpochData → ℚ) :
    ∀ (es : List EpochData) (best : Option ℚ) (j : ℕ) (e : EpochData),
      es[j]? = some e →
      (writeFlags f best es)[j]? = some (ltInf (f e) (runBest f best (es.take j)))
  | [], best, j, e, h => by simp at h
  | e0 :: es, best, 0, e, h => by
    rw [List.getElem?_cons_zero] at h
    cases h
    rw [writeFlags, List.getElem?_cons_zero, List.take_zero, runBest]
  | e0 :: es, best, j + 1, e, h => by
    rw [List.getElem?_cons_succ] at h
    rw [writeFlags, List.getElem?_cons_succ, List.take_succ_cons, runBest]
    exact writeFlags_getElem f es (stepBest f best e0) j e h

/-- Beating the running `best_loss` is the same as beating every previous
epoch's comparison loss (`best_loss` is their minimum, `+∞` when none). -/
lemma ltInf_runBest (f : EpochData → ℚ) :
    ∀ (es : List EpochData) (best : Option ℚ) (l : ℚ),
      ltInf l (runBest f best es) = true ↔
        (ltInf l best = true ∧ ∀ e ∈ es, l < f e)
  | [], best, l => by simp [runBest]
  | e0 :: es, best, l => by
    rw [runBest, ltInf_runBest f es (stepBest f best e0) l, List.forall_mem_cons]
    have hstep : ltInf l (stepBest f best e0) = true ↔
        (ltInf l best = true ∧ l < f e0) := by
      unfold stepBest
      by_cases h0 : ltInf (f e0) best = true
      · rw [if_pos h0]
        cases best with
        | none => simp [ltInf]
        | some b =>
          have hb : f e0 < b := of_decide_eq_true h0
          simp only [ltInf, decide_eq_true_eq]
          exact ⟨fun hl => ⟨lt_trans hl hb, hl⟩, fun hl => hl.2⟩
      · rw [if_neg h0]
        cases best with
        | none => exact absurd rfl h0
        | some b =>
          have hb : b ≤ f e0 := le_of_not_lt (fun hlt => h0 (decide_eq_true hlt))
          simp only [ltInf, decide_eq_true_eq]
          exact ⟨fun hl => ⟨hl, lt_of_lt_of_le hl hb⟩, fun hl => hl.1⟩
    rw [hstep]
    tauto

/-- C3 counterexample: the `train_model.ipynb` training loop runs no
validation pass and gates its checkpoint on the epoch's mean training loss.
In the two-epoch run `demoBasicEpochs` the second epoch's mean validation
loss (9) is not lower than the first epoch's (5), yet the loop writes a
checkpoint at the second epoch (its mean training loss improved), so a write
occurs without the mean validation loss being strictly lower than the best
seen so far. -/
theorem C3_counterexample :
    (writeFlags basicCompareLoss none demoBasicEpochs)[1]? = some true ∧
      ¬ (meanQ [9] < meanQ [5]) := by
  have hflags : writeFlags basicCompareLoss none demoBasicEpochs = [true, true] := by
    norm_num [demoBasicEpochs, writeFlags, stepBest, ltInf, basicCompareLoss, meanQ,
      decide_eq_true_eq]
  rw [hflags]
  refine ⟨rfl, ?_⟩
  norm_num [meanQ]

/-- C3 (amended, for the optimized `train_model` loop — the
`train_model.ipynb` loop instead compares the epoch's mean training loss and
runs no validation pass): `best_loss` starts at `+∞`; a checkpoint write
occurs at epoch `j` iff the epoch's mean validation loss beats the running
`best_loss`, i.e. iff it is strictly lower than every preceding epoch's mean
validation loss; and on the validation-loss run
[12.6, 11.2, 10.9, 10.9, 10.8, 13.4, 10.1, 10.0] no write occurs at the
regressing epoch (13.4) and the finally saved checkpoint's recorded loss is
10.0, the minimum of the sequence. -/
theorem C3_amended :
    (∀ (es : List EpochData) (j : ℕ) (e : EpochData), es[j]? = some e →
      (writeFlags optimizedCompareLoss none es)[j]? =
        some (ltInf (optimizedCompareLoss e)
          (runBest optimizedCompareLoss none (es.take j)))) ∧
    (∀ (es : List EpochData) (l : ℚ),
      ltInf l (runBest optimizedCompareLoss none es) = true ↔
        ∀ e ∈ es, l < optimizedCompareLoss e) ∧
    (writeFlags optimizedCompareLoss none demoEpochs)[5]? = some false ∧
    (runSaves optimizedCompareLoss 0 none none demoEpochs).map CkptFile.loss = some 10 ∧
    (∀ e ∈ demoEpochs, 10 ≤ optimizedCompareLoss e) := by
  have hflags : writeFlags optimizedCompareLoss none demoEpochs =
      [true, true, true, false, true, false, true, true] := by
    norm_num [demoEpochs, writeFlags, stepBest, ltInf, optimizedCompareLoss, meanQ,
      decide_eq_true_eq]
  have hsaves : runSaves optimizedCompareLoss 0 none none demoEpochs = some ⟨7, 10⟩ := by
    norm_num [demoEpochs, runSaves, ltInf, optimizedCompareLoss, meanQ, decide_eq_true_eq]
  refine ⟨fun es j e h => writeFlags_getElem _ es none j e h,
    fun es l => ?_, by rw [hflags]; rfl, by rw [hsaves]; rfl, ?_⟩
  · rw [ltInf_runBest]
    simp [ltInf]
  · intro e he
    simp only [demoEpochs, List.mem_map, List.mem_cons] at he
    obtain ⟨l, hl, rfl⟩ := he
    simp only [optimizedCompareLoss, meanQ]
    rcases hl with h | h | h | h | h | h | h | h | h <;> first
      | (subst h; norm_num)
      | simp at h

/-- On a shape-correct input, every check of `forwardShape` passes and the
output shape is `(B, n_sources, n_mels, seq_len)`. -/
lemma forwardShape_ok (cfg : SepConfig) (B : ℕ) (hB : 0 < B) (hM : 0 < cfg.n_mels)
    (hL : 0 < cfg.seq_len) (hS : 0 < cfg.n_sources) :
    forwardShape cfg B cfg.n_mels cfg.seq_len =
      .ok (B, cfg.n_sources, cfg.n_mels, cfg.seq_len) := by
  have hpos : 0 < B * cfg.n_sources * cfg.seq_len := Nat.mul_pos (Nat.mul_pos hB hS) hL
  rw [forwardShape, if_neg (by omega : ¬ (cfg.n_mels = 0 ∨ cfg.seq_len = 0)),
    if_neg (by omega : ¬ 128 * cfg.n_mels ≠ 128 * cfg.n_mels),
    if_neg (not_not_intro (Or.inl (min_self cfg.seq_len))),
    if_neg (not_not_intro (dvd_mul_right (B * cfg.n_sources * cfg.seq_len) cfg.d_model)),
    if_neg (not_not_intro (Nat.mul_div_cancel_left cfg.d_model hpos))]

/-- C1: on a batch of single-channel spectrograms of shape
`(B, n_mels, seq_len)` matching the configured model, `forward` succeeds and
returns shape `(B, 4, n_mels, seq_len)` — batch preserved, exactly 4 source
channels, frequency/time dimensions identical to the input — and (for every
choice of layer weights, i.e. every `SeparatorParams`) every output value is
non-negative, by construction of the final `nn.ReLU`. -/
theorem C1_forward_shape_and_nonneg (n_mels seq_len d_model B : ℕ)
    (hB : 1 ≤ B) (hM : 1 ≤ n_mels) (hL : 1 ≤ seq_len) :
    forwardShape ⟨n_mels, seq_len, 4, d_model⟩ B n_mels seq_len =
      .ok (B, 4, n_mels, seq_len) ∧
    ∀ (P : SeparatorParams ⟨n_mels, seq_len, 4, d_model⟩)
      (x : Fin B → Fin n_mels → Fin seq_len → ℚ)
      (b : Fin B) (s : Fin 4) (f : Fin n_mels) (t : Fin seq_len),
      0 ≤ SpectrogramSeparator.forward P x b s f t := by
  refine ⟨forwardShape_ok _ B hB hM hL (show (0 : ℕ) < 4 by decide), fun P x b s f t => ?_⟩
  show (0 : ℚ) ≤ relu _
  exact le_max_right _ 0

/-- Witness for C1 at `n_mels = seq_len = d_model = 1`, batch 1. -/
theorem C1_witness :
    (1 ≤ 1) ∧
      (forwardShape ⟨1, 1, 4, 1⟩ 1 1 1 = .ok (1, 4, 1, 1) ∧
        ∀ (P : SeparatorParams ⟨1, 1, 4, 1⟩) (x : Fin 1 → Fin 1 → Fin 1 → ℚ)
          (b : Fin 1) (s : Fin 4) (f : Fin 1) (t : Fin 1),
          0 ≤ SpectrogramSeparator.forward P x b s f t) :=
  ⟨by decide, C1_forward_shape_and_nonneg 1 1 1 1 (by decide) (by decide) (by decide)⟩

/-- `forwardShape` on an explicit configuration, with the structure
projections reduced. -/
lemma forwardShape_def (M L S d B F T : ℕ) :
    forwardShape ⟨M, L, S, d⟩ B F T =
      if F = 0 ∨ T = 0 then .error .conv
      else if 128 * F ≠ 128 * M then .error .linear
      else if ¬ (min T L = T ∨ min T L = 1) then .error .posEnc
      else if ¬ (B * S * T ∣ B * S * L * d) then .error .reshape
      else if B * S * L * d / (B * S * T) ≠ d then .error .decoder
      else .ok (B, S, M, T) := rfl

/-- Cancelling the common `B * S` batch factor in the inferred reshape size. -/
lemma reshape_quot (B S T L d : ℕ) (hBS : 0 < B * S) :
    B * S * L * d / (B * S * T) = L * d / T := by
  rw [mul_assoc (B * S) L d]
  exact Nat.mul_div_mul_left (L * d) T hBS

/-- Cancelling the common `B * S` batch factor in the reshape divisibility
check. -/
lemma reshape_dvd (B S T L d : ℕ) (hBS : 0 < B * S) :
    (B * S * T ∣ B * S * L * d) ↔ T ∣ L * d := by
  rw [mul_assoc (B * S) L d]
  exact Nat.mul_dvd_mul_iff_left hBS

/-- C10: for positive dimensions, `forward` returns normally iff the input's
frequency-bin count equals the configured `n_mels` and its time-frame count
equals the configured sequence length; on every other such input shape it
fails with a shape error at the linear projection, the positional-encoding
addition, the query reshape, or the decoder (never at the convolutional
front-end); in particular, the model of the unnamed notebook (default
`seq_len = 20000`, `d_model = 256`) fails at the decoder on the
`(1, 128, 800)` input its own documentation describes. -/
theorem C10_shape_errors (cfg : SepConfig) (hM : 1 ≤ cfg.n_mels) (hL : 1 ≤ cfg.seq_len)
    (hS : 1 ≤ cfg.n_sources) (hd : 1 ≤ cfg.d_model)
    (B F T : ℕ) (hB : 1 ≤ B) (hF : 1 ≤ F) (hT : 1 ≤ T) :
    ((∃ sh, forwardShape cfg B F T = .ok sh) ↔ (F = cfg.n_mels ∧ T = cfg.seq_len)) ∧
    (¬ (F = cfg.n_mels ∧ T = cfg.seq_len) →
      ∃ e, forwardShape cfg B F T = .error e ∧ e ≠ ShapeErr.conv) ∧
    forwardShape ⟨128, 20000, 4, 256⟩ 1 128 800 = .error ShapeErr.decoder := by
  obtain ⟨M, L, S, d⟩ := cfg
  simp only at hM hL hS hd
  have hBS : 0 < B * S := Nat.mul_pos (by omega) (by omega)
  have key : if F = M ∧ T = L then
      forwardShape ⟨M, L, S, d⟩ B F T = .ok (B, S, M, T)
    else ∃ e, forwardShape ⟨M, L, S, d⟩ B F T = .error e ∧ e ≠ ShapeErr.conv := by
    by_cases hFM : F = M
    · subst hFM
      by_cases hTL : T = L
      · subst hTL
        rw [if_pos ⟨rfl, rfl⟩]
        exact forwardShape_ok ⟨F, T, S, d⟩ B (by omega) (show 0 < F by omega)
          (show 0 < T by omega) (show 0 < S by omega)
      · rw [if_neg (fun hc => hTL hc.2)]
        rw [forwardShape_def, if_neg (by omega : ¬ (F = 0 ∨ T = 0)),
          if_neg (by omega : ¬ 128 * F ≠ 128 * F)]
        rcases Nat.lt_or_ge T L with hlt | hge
        · -- T < L : the positional slice has length T, the broadcast passes,
          -- and the reshape or the decoder rejects the queries
          rw [if_neg (not_not_intro (Or.inl (min_eq_left (le_of_lt hlt))))]
          by_cases hdvd : B * S * T ∣ B * S * L * d
          · rw [if_neg (not_not_intro hdvd)]
            have hTd : T ∣ L * d := (reshape_dvd B S T L d hBS).mp hdvd
            have hq : B * S * L * d / (B * S * T) = L * d / T := reshape_quot B S T L d hBS
            rw [if_pos ?_]
            · exact ⟨ShapeErr.decoder, rfl, by simp⟩
            · rw [hq]
              intro hqd
              have hLd : L * d = T * d := Nat.eq_mul_of_div_eq_right hTd hqd
              have : L = T := Nat.eq_of_mul_eq_mul_right (by omega) hLd
              omega
          · rw [if_pos hdvd]
            exact ⟨ShapeErr.reshape, rfl, by simp⟩
        · -- T > L : the positional slice has length L
          have hgt : L < T := by omega
          by_cases hL1 : L = 1
          · subst hL1
            rw [if_neg (not_not_intro (Or.inr (min_eq_right (by omega))))]
            by_cases hdvd : B * S * T ∣ B * S * 1 * d
            · rw [if_neg (not_not_intro hdvd)]
              have hq : B * S * 1 * d / (B * S * T) = 1 * d / T := reshape_quot B S T 1 d hBS
              rw [if_pos ?_]
              · exact ⟨ShapeErr.decoder, rfl, by simp⟩
              · rw [hq, one_mul]
                have : d / T < d := Nat.div_lt_self (by omega) (by omega)
                omega
            · rw [if_pos hdvd]
              exact ⟨ShapeErr.reshape, rfl, by simp⟩
          · rw [if_pos ?_]
            · exact ⟨ShapeErr.posEnc, rfl, by simp⟩
            · rw [min_eq_right (le_of_lt hgt)]
              omega
    · rw [if_neg (fun hc => hFM hc.1)]
      rw [forwardShape_def, if_neg (by omega : ¬ (F = 0 ∨ T = 0)),
        if_pos (by omega : 128 * F ≠ 128 * M)]
      exact ⟨ShapeErr.linear, rfl, by simp⟩
  refine ⟨⟨fun hok => ?_, fun hmatch => ?_⟩, fun hnot => ?_, ?_⟩
  · by_cases h : F = M ∧ T = L
    · exact h
    · rw [if_neg h] at key
      obtain ⟨e, he, _⟩ := key
      obtain ⟨sh, hsh⟩ := hok
      rw [hsh] at he
      exact absurd he (by simp)
  · rw [if_pos hmatch] at key
    exact ⟨_, key⟩
  · rw [if_neg hnot] at key
    exact key
  · have h800 : (800 : ℕ) ∣ 20000 * 256 := by decide
    have hq : (1 : ℕ) * 4 * 20000 * 256 / (1 * 4 * 800) = 20000 * 256 / 800 :=
      reshape_quot 1 4 800 20000 256 (by decide)
    rw [forwardShape_def]
    rw [if_neg (by omega : ¬ ((128 : ℕ) = 0 ∨ (800 : ℕ) = 0)),
      if_neg (by omega : ¬ (128 : ℕ) * 128 ≠ 128 * 128),
      if_neg (not_not_intro (Or.inl (min_eq_left (by omega : (800 : ℕ) ≤ 20000)))),
      if_neg (not_not_intro ((reshape_dvd 1 4 800 20000 256 (by decide)).mpr h800)),
      if_pos (by rw [hq]; decide)]

/-- Witness for C10 at the unit configuration and a matching `1 × 1 × 1`
input. -/
theorem C10_witness :
    (1 ≤ 1) ∧
      (((∃ sh, forwardShape ⟨1, 1, 1, 1⟩ 1 1 1 = .ok sh) ↔ ((1 : ℕ) = 1 ∧ (1 : ℕ) = 1)) ∧
        (¬ ((1 : ℕ) = 1 ∧ (1 : ℕ) = 1) →
          ∃ e, forwardShape ⟨1, 1, 1, 1⟩ 1 1 1 = .error e ∧ e ≠ ShapeErr.conv) ∧
        forwardShape ⟨128, 20000, 4, 256⟩ 1 128 800 = .error ShapeErr.decoder) :=
  ⟨by decide, C10_shape_errors ⟨1, 1, 1, 1⟩ (by decide) (by decide) (by decide) (by decide)
    1 1 1 (by decide) (by decide) (by decide)⟩

/-- `dot2 v v` is a sum of squares. -/
lemma dot2_self_nonneg {F T : ℕ} (v : Fin F → Fin T → ℚ) : 0 ≤ dot2 v v :=
  Finset.sum_nonneg fun _ _ => Finset.sum_nonneg fun _ _ => mul_self_nonneg _

/-- The energy ratio is non-negative whenever `eps` is. -/
lemma SI_SDR_ratio_nonneg (eps : ℚ) (heps : 0 ≤ eps) {F T : ℕ} (p t : Fin F → Fin T → ℚ) :
    0 ≤ SI_SDR_ratio eps p t := by
  unfold SI_SDR_ratio
  apply div_nonneg (dot2_self_nonneg _)
  have := dot2_self_nonneg
    (fun f u => zm2 p f u - SI_SDR_alpha eps p t * zm2 t f u)
  linarith

/-- The `log10` argument `ratio + eps` is positive for positive `eps`. -/
lemma ratio_add_eps_pos (eps : ℚ) (heps : 0 < eps) {F T : ℕ} (p t : Fin F → Fin T → ℚ) :
    0 < SI_SDR_ratio eps p t + eps := by
  have := SI_SDR_ratio_nonneg eps heps.le p t
  linarith

/-- The loss of a single-row batch (`B = S = 1`) is the negated row score. -/
lemma forward_single (eps : ℚ) {F T : ℕ} (p t : Fin F → Fin T → ℚ) :
    SI_SDR_Loss.forward eps (fun (_ : Fin 1) (_ : Fin 1) => p) (fun _ _ => t) =
      -(SI_SDR_row eps p t) := by
  unfold SI_SDR_Loss.forward
  rw [Fin.sum_univ_one, Fin.sum_univ_one]
  norm_num

/-- Row scores are strictly monotone in the energy ratio (`log10` is strictly
increasing on positive arguments). -/
lemma SI_SDR_row_lt (eps : ℚ) {F T F2 T2 : ℕ} (p t : Fin F → Fin T → ℚ)
    (q u : Fin F2 → Fin T2 → ℚ)
    (h0 : 0 < SI_SDR_ratio eps p t + eps)
    (h : SI_SDR_ratio eps p t < SI_SDR_ratio eps q u) :
    SI_SDR_row eps p t < SI_SDR_row eps q u := by
  unfold SI_SDR_row log10
  have hx : (0 : ℝ) < ((SI_SDR_ratio eps p t + eps : ℚ) : ℝ) := by exact_mod_cast h0
  have hy : ((SI_SDR_ratio eps p t + eps : ℚ) : ℝ) <
      ((SI_SDR_ratio eps q u + eps : ℚ) : ℝ) := by
    exact_mod_cast add_lt_add_right h eps
  have hlog := Real.log_lt_log hx hy
  have hl10 : (0 : ℝ) < Real.log 10 := Real.log_pos (by norm_num)
  exact mul_lt_mul_of_pos_left ((div_lt_div_iff_of_pos_right hl10).mpr hlog) (by norm_num)

/-- Zero-meaning commutes with scalar rescaling. -/
lemma zm2_smul (c : ℚ) {F T : ℕ} (p : Fin F → Fin T → ℚ) :
    zm2 (fun f u => c * p f u) = fun f u => c * zm2 p f u := by
  funext f u
  unfold zm2 tmean2 tsum2
  have hs : ∑ f2, ∑ u2, c * p f2 u2 = c * ∑ f2, ∑ u2, p f2 u2 := by
    rw [Finset.mul_sum]
    refine Finset.sum_congr rfl fun f2 _ => ?_
    rw [Finset.mul_sum]
  rw [hs, mul_div_assoc]
  ring

/-- Pulling a scalar out of the left argument of `dot2`. -/
lemma dot2_mul_left (a : ℚ) {F T : ℕ} (u v : Fin F → Fin T → ℚ) :
    dot2 (fun f w => a * u f w) v = a * dot2 u v := by
  unfold dot2
  rw [Finset.mul_sum]
  refine Finset.sum_congr rfl fun f _ => ?_
  rw [Finset.mul_sum]
  refine Finset.sum_congr rfl fun w _ => ?_
  ring

/-- Pulling scalars out of both arguments of `dot2`. -/
lemma dot2_mul_mul (a b : ℚ) {F T : ℕ} (u v : Fin F → Fin T → ℚ) :
    dot2 (fun f w => a * u f w) (fun f w => b * v f w) = a * b * dot2 u v := by
  unfold dot2
  rw [Finset.mul_sum]
  refine Finset.sum_congr rfl fun f _ => ?_
  rw [Finset.mul_sum]
  refine Finset.sum_congr rfl fun w _ => ?_
  ring

/-- With `prediction = target`, the optimal scale factor is exactly 1. -/
lemma SI_SDR_alpha_self (eps : ℚ) (heps : 0 < eps) {F T : ℕ} (t : Fin F → Fin T → ℚ) :
    SI_SDR_alpha eps t t = 1 := by
  unfold SI_SDR_alpha
  exact div_self (by have := dot2_self_nonneg (zm2 t); linarith)

/-- With `prediction = target`, the residual vanishes and the energy ratio is
`‖t‖² / eps`. -/
lemma SI_SDR_ratio_self (eps : ℚ) (heps : 0 < eps) {F T : ℕ} (t : Fin F → Fin T → ℚ) :
    SI_SDR_ratio eps t t = dot2 (zm2 t) (zm2 t) / eps := by
  unfold SI_SDR_ratio
  rw [SI_SDR_alpha_self eps heps t]
  rw [show (fun f u => (1 : ℚ) * zm2 t f u) = zm2 t from by funext f u; ring]
  rw [show (fun f u => zm2 t f u - (1 : ℚ) * zm2 t f u) = fun (_ : Fin F) (_ : Fin T) => (0 : ℚ)
    from by funext f u; ring]
  rw [show dot2 (fun (_ : Fin F) (_ : Fin T) => (0 : ℚ)) (fun _ _ => (0 : ℚ)) = 0 from by
    simp [dot2]]
  rw [zero_add]

/-- With `prediction = 2 * target`, the scale factor is
`(2‖t‖² + eps) / (‖t‖² + eps)` — the `eps` in the numerator keeps it below 2. -/
lemma SI_SDR_alpha_double (eps : ℚ) {F T : ℕ} (t : Fin F → Fin T → ℚ) :
    SI_SDR_alpha eps (fun f u => 2 * t f u) t =
      (2 * dot2 (zm2 t) (zm2 t) + eps) / (dot2 (zm2 t) (zm2 t) + eps) := by
  unfold SI_SDR_alpha
  rw [zm2_smul, dot2_mul_left]

/-- The energy ratio at `prediction = 2 * target`, in closed form in the
scale factor. -/
lemma SI_SDR_ratio_double (eps : ℚ) {F T : ℕ} (t : Fin F → Fin T → ℚ) :
    SI_SDR_ratio eps (fun f u => 2 * t f u) t =
      (SI_SDR_alpha eps (fun f u => 2 * t f u) t *
         SI_SDR_alpha eps (fun f u => 2 * t f u) t * dot2 (zm2 t) (zm2 t)) /
      ((2 - SI_SDR_alpha eps (fun f u => 2 * t f u) t) *
         (2 - SI_SDR_alpha eps (fun f u => 2 * t f u) t) * dot2 (zm2 t) (zm2 t) + eps) := by
  unfold SI_SDR_ratio
  simp only [zm2_smul]
  rw [show (fun f u => 2 * zm2 t f u -
        SI_SDR_alpha eps (fun f u => 2 * t f u) t * zm2 t f u) =
      (fun f u => (2 - SI_SDR_alpha eps (fun f u => 2 * t f u) t) * zm2 t f u) from by
    funext f u; ring]
  rw [dot2_mul_mul, dot2_mul_mul]

/-- The epsilon in the numerator of `alpha` makes `2 * target` a strictly
better prediction than `target` itself whenever the zero-meaned target has
positive energy. -/
lemma ratio_self_lt_double (eps : ℚ) (heps : 0 < eps) {F T : ℕ} (t : Fin F → Fin T → ℚ)
    (hE : 0 < dot2 (zm2 t) (zm2 t)) :
    SI_SDR_ratio eps t t < SI_SDR_ratio eps (fun f u => 2 * t f u) t := by
  rw [SI_SDR_ratio_self eps heps t, SI_SDR_ratio_double eps t, SI_SDR_alpha_double eps t]
  set E := dot2 (zm2 t) (zm2 t) with hEdef
  have hEe : 0 < E + eps := by linarith
  have hne : E + eps ≠ 0 := ne_of_gt hEe
  have hUne : (E + eps) * (E + eps) ≠ 0 := mul_ne_zero hne hne
  have h2A : 2 - (2 * E + eps) / (E + eps) = eps / (E + eps) := by
    field_simp
    ring
  rw [h2A]
  have hnum : (2 * E + eps) / (E + eps) * ((2 * E + eps) / (E + eps)) * E =
      (2 * E + eps) * (2 * E + eps) * E / ((E + eps) * (E + eps)) := by
    rw [div_mul_div_comm, div_mul_eq_mul_div]
  have hden2 : eps / (E + eps) * (eps / (E + eps)) * E + eps =
      (eps * eps * E + eps * ((E + eps) * (E + eps))) / ((E + eps) * (E + eps)) := by
    rw [div_mul_div_comm, div_mul_eq_mul_div, div_add' _ _ _ hUne]
  rw [hnum, hden2, div_div_div_cancel_right₀ hUne]
  have hposD : 0 < eps * eps * E + eps * ((E + eps) * (E + eps)) := by
    have h1 := mul_pos (mul_pos heps heps) hE
    have h2 := mul_pos heps (mul_pos hEe hEe)
    linarith
  rw [div_lt_div_iff₀ heps hposD]
  nlinarith [mul_pos (mul_pos (mul_pos hE hE) hE) heps,
    mul_pos (mul_pos hE hE) (mul_pos heps heps)]

/-- With `eps = 0`, the energy ratio is invariant under non-zero rescaling of
the prediction: the optimal `alpha` compensates exactly. -/
lemma ratio_smul_zero (c : ℚ) (hc : c ≠ 0) {F T : ℕ} (p t : Fin F → Fin T → ℚ) :
    SI_SDR_ratio 0 (fun f u => c * p f u) t = SI_SDR_ratio 0 p t := by
  have halpha : SI_SDR_alpha 0 (fun f u => c * p f u) t = c * SI_SDR_alpha 0 p t := by
    unfold SI_SDR_alpha
    rw [zm2_smul, dot2_mul_left]
    simp only [add_zero]
    rw [mul_div_assoc]
  have hLnum : dot2 (fun f u => c * SI_SDR_alpha 0 p t * zm2 t f u)
      (fun f u => c * SI_SDR_alpha 0 p t * zm2 t f u) =
      c * SI_SDR_alpha 0 p t * (c * SI_SDR_alpha 0 p t) * dot2 (zm2 t) (zm2 t) :=
    dot2_mul_mul _ _ _ _
  have hRnum : dot2 (fun f u => SI_SDR_alpha 0 p t * zm2 t f u)
      (fun f u => SI_SDR_alpha 0 p t * zm2 t f u) =
      SI_SDR_alpha 0 p t * SI_SDR_alpha 0 p t * dot2 (zm2 t) (zm2 t) :=
    dot2_mul_mul _ _ _ _
  have hLden : dot2 (fun f u => c * (zm2 p f u - SI_SDR_alpha 0 p t * zm2 t f u))
      (fun f u => c * (zm2 p f u - SI_SDR_alpha 0 p t * zm2 t f u)) =
      c * c * dot2 (fun f u => zm2 p f u - SI_SDR_alpha 0 p t * zm2 t f u)
        (fun f u => zm2 p f u - SI_SDR_alpha 0 p t * zm2 t f u) :=
    dot2_mul_mul _ _ _ _
  unfold SI_SDR_ratio
  simp only [zm2_smul, halpha]
  rw [show (fun f u => c * zm2 p f u - c * SI_SDR_alpha 0 p t * zm2 t f u) =
      (fun f u => c * (zm2 p f u - SI_SDR_alpha 0 p t * zm2 t f u)) from by
    funext f u; ring]
  rw [hLnum, hRnum, hLden]
  simp only [add_zero]
  rw [show c * SI_SDR_alpha 0 p t * (c * SI_SDR_alpha 0 p t) * dot2 (zm2 t) (zm2 t) =
      c * c * (SI_SDR_alpha 0 p t * SI_SDR_alpha 0 p t * dot2 (zm2 t) (zm2 t)) from by ring]
  exact mul_div_mul_left _ _ (mul_ne_zero hc hc)

/-- The concrete row `(1, -1)` has zero-meaned energy 2. -/
lemma cexRow_energy : dot2 (zm2 cexRow) (zm2 cexRow) = 2 := by
  norm_num [dot2, zm2, tmean2, tsum2, cexRow, Fin.sum_univ_two, Fin.sum_univ_one]

/-- At the default `eps = 1e-8` and the row `(1, -1)`, doubling strictly
increases the energy ratio. -/
lemma cexRow_row_lt :
    SI_SDR_row (1/100000000) cexRow cexRow <
      SI_SDR_row (1/100000000) (fun f j => 2 * cexRow f j) cexRow := by
  have heps : (0 : ℚ) < 1/100000000 := by norm_num
  have hE : 0 < dot2 (zm2 cexRow) (zm2 cexRow) := by rw [cexRow_energy]; norm_num
  exact SI_SDR_row_lt _ _ _ _ _ (ratio_add_eps_pos _ heps _ _)
    (ratio_self_lt_double _ heps _ hE)

/-- C7 counterexample: at the default `eps = 1e-8`, the prediction `(1, -1)`
(equal to its target) and the rescaled prediction `2 * (1, -1)` receive
different losses — the additive epsilon in `alpha`'s numerator prevents the
optimal scale from compensating exactly, so the loss is not invariant under
positive rescaling of the prediction. -/
theorem C7_counterexample :
    SI_SDR_Loss.forward (1/100000000)
        (fun (_ : Fin 1) (_ : Fin 1) (f : Fin 1) (j : Fin 2) => 2 * cexRow f j)
        (fun _ _ => cexRow) ≠
      SI_SDR_Loss.forward (1/100000000) (fun (_ : Fin 1) (_ : Fin 1) => cexRow)
        (fun _ _ => cexRow) := by
  rw [forward_single, forward_single]
  exact ne_of_lt (neg_lt_neg cexRow_row_lt)

/-- C7 (amended): exact scale invariance holds for the idealized loss with
`eps = 0` — for every positive scalar `c`, rescaling the predictions by `c`
leaves the loss unchanged, the optimal `alpha` compensating exactly.  (With
the code's `eps > 0` the invariance is only approximate; see the
counterexample.) -/
theorem C7_amended (c : ℚ) (hc : 0 < c) {B S F T : ℕ}
    (predictions targets : Fin B → Fin S → Fin F → Fin T → ℚ) :
    SI_SDR_Loss.forward 0 (fun b s f u => c * predictions b s f u) targets =
      SI_SDR_Loss.forward 0 predictions targets := by
  unfold SI_SDR_Loss.forward
  congr 2
  refine Finset.sum_congr rfl fun b _ => Finset.sum_congr rfl fun s _ => ?_
  show SI_SDR_row 0 (fun f u => c * predictions b s f u) (targets b s) =
    SI_SDR_row 0 (predictions b s) (targets b s)
  unfold SI_SDR_row
  rw [ratio_smul_zero c (ne_of_gt hc)]

/-- Witness for C7 (amended) at `c = 2` on the zero tensor. -/
theorem C7_witness :
    (0 : ℚ) < 2 ∧
      SI_SDR_Loss.forward 0 (fun b s f u => 2 * cexZero b s f u) cexZero =
        SI_SDR_Loss.forward 0 cexZero cexZero :=
  ⟨by norm_num, C7_amended 2 (by norm_num) cexZero cexZero⟩

/-- C8 counterexample: at the default `eps = 1e-8` and the non-zero target
`(1, -1)`, the prediction `2 * (1, -1)` attains a strictly lower loss than
the prediction equal to the target, so the loss at `prediction = target` is
not the most negative value achievable. -/
theorem C8_counterexample :
    SI_SDR_Loss.forward (1/100000000)
        (fun (_ : Fin 1) (_ : Fin 1) (f : Fin 1) (j : Fin 2) => 2 * cexRow f j)
        (fun _ _ => cexRow) <
      SI_SDR_Loss.forward (1/100000000) (fun (_ : Fin 1) (_ : Fin 1) => cexRow)
        (fun _ _ => cexRow) := by
  rw [forward_single, forward_single]
  exact neg_lt_neg cexRow_row_lt

/-- C8 (amended): for every `eps > 0` and every target whose zero-meaned
vector has positive energy, the loss at `prediction = target` is finite (its
`log10` argument is positive), but it is not the most negative achievable:
the prediction `2 * target` attains a strictly lower loss — the epsilon in
`alpha`'s numerator rewards over-scaled predictions. -/
theorem C8_amended (eps : ℚ) (heps : 0 < eps) {F T : ℕ} (t : Fin F → Fin T → ℚ)
    (ht : 0 < dot2 (zm2 t) (zm2 t)) :
    0 < SI_SDR_ratio eps t t + eps ∧
    SI_SDR_Loss.forward eps
        (fun (_ : Fin 1) (_ : Fin 1) (f : Fin F) (u : Fin T) => 2 * t f u)
        (fun _ _ => t) <
      SI_SDR_Loss.forward eps (fun (_ : Fin 1) (_ : Fin 1) => t) (fun _ _ => t) := by
  refine ⟨ratio_add_eps_pos eps heps t t, ?_⟩
  rw [forward_single, forward_single]
  exact neg_lt_neg (SI_SDR_row_lt _ _ _ _ _ (ratio_add_eps_pos eps heps t t)
    (ratio_self_lt_double eps heps t ht))

/-- Witness for C8 (amended) at `eps = 1` and the target row `(1, -1)`. -/
theorem C8_witness :
    (0 : ℚ) < 1 ∧ 0 < dot2 (zm2 cexRow) (zm2 cexRow) ∧
      (0 < SI_SDR_ratio 1 cexRow cexRow + 1 ∧
        SI_SDR_Loss.forward 1
            (fun (_ : Fin 1) (_ : Fin 1) (f : Fin 1) (j : Fin 2) => 2 * cexRow f j)
            (fun _ _ => cexRow) <
          SI_SDR_Loss.forward 1 (fun (_ : Fin 1) (_ : Fin 1) => cexRow) (fun _ _ => cexRow)) :=
  ⟨one_pos, by rw [cexRow_energy]; norm_num,
    C8_amended 1 one_pos cexRow (by rw [cexRow_energy]; norm_num)⟩

/-- C9: for every `eps > 0` and every predictions/targets pair — including a
target that is identically zero — each of the three epsilon-guarded
quantities of `SI_SDR_Loss.forward` is strictly positive: the denominator of
`alpha`, the denominator of the energy ratio, and the argument of `log10`.
No division by zero occurs and the loss is a well-defined (finite) value. -/
theorem C9_epsilon_guards (eps : ℚ) (heps : 0 < eps) {B S F T : ℕ}
    (predictions targets : Fin B → Fin S → Fin F → Fin T → ℚ) (b : Fin B) (s : Fin S) :
    0 < dot2 (zm2 (targets b s)) (zm2 (targets b s)) + eps ∧
    0 < dot2 (fun f u => zm2 (predictions b s) f u -
          SI_SDR_alpha eps (predictions b s) (targets b s) * zm2 (targets b s) f u)
        (fun f u => zm2 (predictions b s) f u -
          SI_SDR_alpha eps (predictions b s) (targets b s) * zm2 (targets b s) f u) + eps ∧
    0 < SI_SDR_ratio eps (predictions b s) (targets b s) + eps := by
  refine ⟨?_, ?_, ratio_add_eps_pos eps heps _ _⟩
  · have := dot2_self_nonneg (zm2 (targets b s))
    linarith
  · have := dot2_self_nonneg (fun f u => zm2 (predictions b s) f u -
      SI_SDR_alpha eps (predictions b s) (targets b s) * zm2 (targets b s) f u)
    linarith

/-- Witness for C9 at `eps = 1` and the all-zero (silent) tensors. -/
theorem C9_witness :
    (0 : ℚ) < 1 ∧
      (0 < dot2 (zm2 (cexZero 0 0)) (zm2 (cexZero 0 0)) + 1 ∧
       0 < dot2 (fun f u => zm2 (cexZero 0 0) f u -
             SI_SDR_alpha 1 (cexZero 0 0) (cexZero 0 0) * zm2 (cexZero 0 0) f u)
           (fun f u => zm2 (cexZero 0 0) f u -
             SI_SDR_alpha 1 (cexZero 0 0) (cexZero 0 0) * zm2 (cexZero 0 0) f u) + 1 ∧
       0 < SI_SDR_ratio 1 (cexZero 0 0) (cexZero 0 0) + 1) :=
  ⟨one_pos, C9_epsilon_guards 1 one_pos cexZero cexZero 0 0⟩

end Demusc
